import Mathlib

/-!
Verification development for src/src/hashtable_chaining.c, a chained hash table
mapping C strings to opaque data pointers.

Modelling conventions (shallow embedding):

* A key is the list of byte values of the C string, as the (signed) char values
  that `p_key[idx]` yields on the usual ABI; a C string holds no NUL byte, so
  the list is exactly the bytes before the terminator.  A data pointer is
  modelled as a `Nat`; the stored data values are never the null pointer
  because `ht_insert` rejects `NULL == p_data`, so `Option Data` with `none`
  for `NULL` models the return value of `ht_find_key`.
* A chain (entry + repeated `p_next`) is a `List Entry`, head first; the bucket
  array `pp_entries` is a `List` of chains of length `capacity`.
* NULL-able arguments are `Option` parameters.  The table argument of the
  lookup/insert/delete operations is taken non-null (the `NULL == p_hashtable`
  branch of each just returns the failure value without touching any state);
  `ht_compare` keeps its optional table because its argument check is under
  scrutiny here.
* Machine arithmetic: `hash` and `power` are `long long`; C `%` on signed
  operands is `Int.tmod`.  In `hash %= ht_capacity` the operands are
  `long long` and `uint64_t`, so C converts both to unsigned 64-bit:
  `toULL` is that conversion (reduction mod 2^64) and `ofULL` is the
  conversion of the unsigned remainder back to `long long` (wraparound, as on
  every mainstream ABI).
* Allocation outcomes (`calloc`) are oracle `Bool` parameters: `true` means
  the call returned memory.  The mutex only serialises access and has no
  sequential effect, so it is not modelled.
* `free` of a node releases heap memory but does not alter the logical chain
  structure; a node that is freed while still linked (the non-head branch of
  `ht_delete`) therefore stays in its chain, with its old contents, as a
  dangling entry.
-/

namespace HashtableC

/-- One C string key: the char values of its bytes before the terminator. -/
abbrev Key := List Int

/-- An opaque non-null data pointer stored in the table. -/
abbrev Data := Nat

/-- One stored association, `struct entry` without the `p_next` link (the
chain list encodes the links). -/
structure Entry where
  p_key  : Key
  p_data : Data
deriving DecidableEq

/-- The table, `struct hashtable`: bucket array, entry count, capacity.  The
mutex field has no sequential content and is omitted. -/
structure Hashtable where
  pp_entries : List (List Entry)
  size       : Nat
  capacity   : Nat
deriving DecidableEq

/-- 2^64, the modulus of `uint64_t` / `unsigned long long` arithmetic. -/
def U64 : Nat := 2 ^ 64

/-- 2^63, the first value that wraps negative when converted to `long long`. -/
def U63 : Nat := 2 ^ 63

/-- C conversion of a `long long` value to `unsigned long long`
(reduction modulo 2^64). -/
def toULL (x : Int) : Nat := (x % (U64 : Int)).toNat

/-- C conversion of an `unsigned long long` value back to `long long`
(two-complement wraparound, the behaviour of every mainstream compiler). -/
def ofULL (n : Nat) : Int := if n < U63 then (n : Int) else (n : Int) - (U64 : Int)

/-- The constant `choice` in `hash_key` (97, for ASCII-printable keys). -/
def CHOICE : Int := 97

/-- The constant `large` in `hash_key` (1e9 + 9). -/
def LARGE : Int := 1000000009

/-- The `for` loop of `hash_key`: one step per key byte, accumulating
`hash = (hash + (c - 97 + 1) * power) % large` and
`power = (power * choice) % large` in `long long` arithmetic
(C signed `%` is `Int.tmod`). -/
def hashLoop : List Int → Int → Int → Int
  | [], hash, _power => hash
  | c :: rest, hash, power =>
      hashLoop rest (Int.tmod (hash + (c - 97 + 1) * power) LARGE)
        (Int.tmod (power * CHOICE) LARGE)

/-- `hash_key`: returns -1 for a null key or zero capacity; otherwise runs the
polynomial rolling loop starting from `hash = -1`, then executes
`hash %= ht_capacity` with both operands converted to unsigned 64-bit, the
result converted back to `long long`. -/
def hash_key (p_key : Option Key) (ht_capacity : Nat) : Int :=
  match p_key with
  | none => -1
  | some k =>
      if ht_capacity = 0 then -1
      else ofULL (toULL (hashLoop k (-1) 1) % ht_capacity)

/-- The bucket index actually selected for a key: the unsigned remainder
computed by `hash %= ht_capacity`.  Whenever `capacity <= 2^63` this equals
the `long long` value `hash_key` returns, which the operations use to index
`pp_entries`. -/
def bucketIdx (k : Key) (cap : Nat) : Nat :=
  toULL (hashLoop k (-1) 1) % cap

/-- Read `pp_entries[i]`. -/
def getBucket (ht : Hashtable) (i : Nat) : List Entry :=
  ht.pp_entries.getD i []

/-- The `while` loop of `ht_find_key`: walk the chain until the first entry
whose key compares equal (`strcmp == 0`), returning its `p_data`. -/
def findLoop : List Entry → Key → Option Data
  | [], _ => none
  | e :: rest, k => if e.p_key = k then some e.p_data else findLoop rest k

/-- `ht_find_key`, state-passing: fails (returns NULL) on a null key or a
failed hash, otherwise scans the chain of the hashed bucket.  The first
component is the table state when the call returns; the source writes only
to locals, which the definition makes explicit. -/
def ht_find_key (p_hashtable : Hashtable) (p_key : Option Key) :
    Hashtable × Option Data :=
  match p_key with
  | none => (p_hashtable, none)
  | some k =>
      if hash_key (some k) p_hashtable.capacity = -1 then (p_hashtable, none)
      else
        (p_hashtable,
         findLoop (getBucket p_hashtable (bucketIdx k p_hashtable.capacity)) k)

/-- `ht_insert`: rejects null key/data, a failed hash, and a duplicate key
(`NULL != ht_find_key(...)`); with both `calloc` calls succeeding it copies
the key, stores the data pointer, prepends the new entry to the hashed
bucket and increments `size`. -/
def ht_insert (p_hashtable : Hashtable) (p_key : Option Key)
    (p_data : Option Data) (entry_alloc key_alloc : Bool) : Hashtable × Bool :=
  match p_key, p_data with
  | some k, some d =>
      if hash_key (some k) p_hashtable.capacity = -1 then (p_hashtable, false)
      else if (ht_find_key p_hashtable (some k)).2 ≠ none then
        (p_hashtable, false)
      else if entry_alloc = false then (p_hashtable, false)
      else if key_alloc = false then (p_hashtable, false)
      else
        ({ p_hashtable with
             pp_entries := p_hashtable.pp_entries.set
               (bucketIdx k p_hashtable.capacity)
               (⟨k, d⟩ :: getBucket p_hashtable (bucketIdx k p_hashtable.capacity)),
             size := p_hashtable.size + 1 }, true)
  | _, _ => (p_hashtable, false)

/-- The scan loop of `ht_delete`, tracking the previous node: splits the chain
at the first entry whose key matches into (entries before it, the entry,
entries after it); `none` when no key matches. -/
def delLoop : List Entry → Key → Option (List Entry × Entry × List Entry)
  | [], _ => none
  | e :: rest, k =>
      if e.p_key = k then some ([], e, rest)
      else
        match delLoop rest k with
        | none => none
        | some (before, m, suf) => some (e :: before, m, suf)

/-- Result of `ht_delete`: a normal return carries the table state, the
`bool` result and the list of data values the destructor callback was invoked
on; `crash` is the undefined behaviour of calling a NULL function pointer. -/
inductive DelResult where
  | ret (ht : Hashtable) (b_result : Bool) (del_calls : List Data)
  | crash
deriving DecidableEq

/-- `ht_delete`: checks only `p_hashtable` and `p_key` for NULL (the callback
is never checked).  On a found key, when the match is the chain head the
bucket head is re-pointed to the next node; otherwise the source executes
`p_prev_entry = p_temp_entry->p_next`, which reassigns the local variable and
leaves the chain unchanged (the freed node stays linked).  `size` is not
decremented on any path.  The destructor is then invoked on the data of the
matched entry — through a NULL pointer when `p_del_func` is absent. -/
def ht_delete (p_hashtable : Hashtable) (p_key : Option Key)
    (p_del_func : Option Unit) : DelResult :=
  match p_key with
  | none => .ret p_hashtable false []
  | some k =>
      if hash_key (some k) p_hashtable.capacity = -1 then
        .ret p_hashtable false []
      else
        match delLoop (getBucket p_hashtable (bucketIdx k p_hashtable.capacity)) k with
        | none => .ret p_hashtable false []
        | some (before, e, suf) =>
            let ht2 :=
              if before = [] then
                { p_hashtable with
                    pp_entries := p_hashtable.pp_entries.set
                      (bucketIdx k p_hashtable.capacity) suf }
              else p_hashtable
            match p_del_func with
            | none => DelResult.crash
            | some _ => DelResult.ret ht2 true [e.p_data]

/-- Result of `ht_compare`: a normal return of the match pointer, or the
undefined behaviour of calling a NULL predicate. -/
inductive CompResult where
  | ret (p_match : Option Data)
  | crash

/-- The inner `while` loop of `ht_compare` over one chain, with the callback
as the code holds it (possibly NULL): each entry causes a call
`p_user_func(p_temp_entry->p_data)`; a non-NULL result returns immediately. -/
def compChain : Option (Data → Option Data) → List Entry → CompResult
  | _, [] => CompResult.ret none
  | none, _ :: _ => CompResult.crash
  | some f, e :: rest =>
      match f e.p_data with
      | some m => CompResult.ret (some m)
      | none => compChain (some f) rest

/-- The outer `for` loop of `ht_compare` over the bucket array in index
order; a chain that yields no match continues to the next bucket. -/
def compBuckets (f : Option (Data → Option Data)) :
    List (List Entry) → CompResult
  | [] => CompResult.ret none
  | b :: rest =>
      match compChain f b with
      | CompResult.ret none => compBuckets f rest
      | r => r

/-- `ht_compare`.  The argument check in the source is
`(NULL == p_hashtable) || (p_user_func)`: a null table takes the error
branch, but so does every call with a PROVIDED callback, while a null
callback passes the check and is then invoked inside the loop. -/
def ht_compare (p_hashtable : Option Hashtable)
    (p_user_func : Option (Data → Option Data)) : CompResult :=
  match p_hashtable, p_user_func with
  | none, _ => CompResult.ret none
  | some _, some _ => CompResult.ret none
  | some t, none => compBuckets none t.pp_entries

/-- The table as `ht_create` builds it before the bucket-array allocation is
(mis)checked: `pp_entries` may be NULL. -/
structure HashtableRaw where
  pp_entries : Option (List (List Entry))
  size       : Nat
  capacity   : Nat
deriving DecidableEq

/-- `ht_create`: fails on zero capacity and on a failed table allocation.
After `pp_entries = calloc(capacity, ...)` the source tests
`NULL == p_new_hashtable` — the table pointer, which is non-null at that
point — so a failed bucket-array allocation is never detected and the handle
is returned with `pp_entries` NULL, `size` 0 and `capacity` set. -/
def ht_create (capacity : Nat) (table_alloc buckets_alloc : Bool) :
    Option HashtableRaw :=
  if capacity = 0 then none
  else if table_alloc = false then none
  else
    some { pp_entries :=
             if buckets_alloc then some (List.replicate capacity []) else none,
           size := 0,
           capacity := capacity }

/-- Number of entries reachable by traversing all bucket chains. -/
def reachableEntries (ht : Hashtable) : Nat :=
  (ht.pp_entries.map List.length).sum

/-- The structural invariant every table built by `ht_create` satisfies and
every operation preserves: the bucket array has exactly `capacity` slots. -/
abbrev WF (ht : Hashtable) : Prop := ht.pp_entries.length = ht.capacity

/-- One client call on a live table: an insert (with the outcomes of its two
allocations) or a delete with a valid destructor callback. -/
inductive Op where
  | ins (k : Key) (d : Data) (a1 a2 : Bool)
  | del (k : Key)
deriving DecidableEq

/-- Apply one operation, returning the new table state and the boolean the
call returned.  A delete with a present callback never crashes; the `crash`
arm is unreachable and maps to a no-op for totality. -/
def applyOp (ht : Hashtable) : Op → Hashtable × Bool
  | .ins k d a1 a2 => ht_insert ht (some k) (some d) a1 a2
  | .del k =>
      match ht_delete ht (some k) (some ()) with
      | .ret ht2 b _ => (ht2, b)
      | .crash => (ht, false)

/-- Run a sequence of operations. -/
def run (ht : Hashtable) : List Op → Hashtable
  | [] => ht
  | op :: ops => run (applyOp ht op).1 ops

/-- Boolean trace predicate: along the run of `ops` from `ht`, no delete of
key `K` returns true. -/
def noDelSucc (ht : Hashtable) (K : Key) : List Op → Bool
  | [] => true
  | op :: ops =>
      (match op with
       | Op.del k2 => if k2 = K then !(applyOp ht op).2 else true
       | Op.ins _ _ _ _ => true) && noDelSucc (applyOp ht op).1 K ops

end HashtableC

namespace HashtableC

/-! ### Helper lemmas -/

theorem U64_val : U64 = 18446744073709551616 := by norm_num [U64]

theorem U63_val : U63 = 9223372036854775808 := by norm_num [U63]

theorem ofULL_ne_neg_one (n : Nat) (h : n ≠ U64 - 1) : ofULL n ≠ -1 := by
  rw [U64_val] at h
  unfold ofULL
  rw [U63_val, U64_val]
  split <;> omega

theorem ofULL_small (n : Nat) (h : n < U63) : ofULL n = (n : Int) := by
  simp [ofULL, h]

theorem hash_key_some_eq (k : Key) (cap : Nat) (h : cap ≠ 0) :
    hash_key (some k) cap = ofULL (toULL (hashLoop k (-1) 1) % cap) := by
  simp [hash_key, h]

theorem cap_ne_zero_of_hash_ne (k : Key) (cap : Nat)
    (h : hash_key (some k) cap ≠ -1) : cap ≠ 0 := by
  intro h0
  exact h (by simp [hash_key, h0])

theorem bucketIdx_lt (k : Key) (cap : Nat) (h : cap ≠ 0) : bucketIdx k cap < cap :=
  Nat.mod_lt _ (Nat.pos_of_ne_zero h)

theorem list_getD_set_self {α : Type} (l : List α) (i : Nat) (a d : α)
    (h : i < l.length) : (l.set i a).getD i d = a := by
  induction l generalizing i with
  | nil => simp at h
  | cons x xs ih =>
      cases i with
      | zero => rfl
      | succ n =>
          show (xs.set n a).getD n d = a
          exact ih n (Nat.lt_of_succ_lt_succ h)

theorem list_getD_set_ne {α : Type} (l : List α) (i j : Nat) (a d : α)
    (h : i ≠ j) : (l.set i a).getD j d = l.getD j d := by
  induction l generalizing i j with
  | nil => rfl
  | cons x xs ih =>
      cases i with
      | zero =>
          cases j with
          | zero => exact absurd rfl h
          | succ m => rfl
      | succ n =>
          cases j with
          | zero => rfl
          | succ m => exact ih n m (fun hc => h (by rw [hc]))

/-! ### hash_key facts (claims C2, C9) -/

/-- Claim C2, counterexample: at capacity 2^64 - 1 the key consisting of the
single byte 65 gives a rolling hash of -32; the unsigned remainder converts
back to the long long value -32, which is not a bucket index in
[0, capacity). -/
theorem C2_counterexample :
    hash_key (some [65]) (U64 - 1) = -32 ∧
    hash_key (some [65]) (U64 - 1) < 0 := by
  constructor <;> decide

/-- Claim C2, amended: hash_key is a pure function of (key, capacity); it
returns the sentinel -1 exactly when the capacity is 0 or the key is null;
for every non-null key and every capacity between 1 and 2^63 it returns a
bucket index in [0, capacity).  (Above 2^63 the unsigned remainder can wrap
to a negative long long other than -1.) -/
theorem C2_amended (ko : Option Key) (cap : Nat) (hcap : cap < U64) :
    (hash_key ko cap = -1 ↔ (ko = none ∨ cap = 0)) ∧
    (∀ k, ko = some k → cap ≠ 0 → cap ≤ U63 →
      0 ≤ hash_key ko cap ∧ hash_key ko cap < (cap : Int)) := by
  constructor
  · cases ko with
    | none => simp [hash_key]
    | some k =>
        by_cases h0 : cap = 0
        · simp [hash_key, h0]
        · rw [hash_key_some_eq k cap h0]
          have hr : toULL (hashLoop k (-1) 1) % cap < cap :=
            Nat.mod_lt _ (Nat.pos_of_ne_zero h0)
          have hne : ofULL (toULL (hashLoop k (-1) 1) % cap) ≠ -1 := by
            apply ofULL_ne_neg_one
            rw [U64_val] at hcap ⊢
            omega
          simp [hne, h0]
  · rintro k rfl h0 h63
    rw [hash_key_some_eq k cap h0]
    have hr : toULL (hashLoop k (-1) 1) % cap < cap :=
      Nat.mod_lt _ (Nat.pos_of_ne_zero h0)
    rw [ofULL_small _ (Nat.lt_of_lt_of_le hr h63)]
    exact ⟨Int.natCast_nonneg _, by exact_mod_cast hr⟩

/-- Witness for C2_amended at key [97] and capacity 7. -/
theorem C2_witness :
    0 ≤ hash_key (some [97]) 7 ∧ hash_key (some [97]) 7 < (7 : Int) :=
  (C2_amended (some [97]) 7 (by decide)).2 [97] rfl (by decide) (by decide)

/-- Claim C9, counterexample: for the empty string the hash accumulator stays
-1, but the final reduction runs in unsigned 64-bit arithmetic, so at
capacity 7 hash_key returns 1 (not -1) and inserting the empty key into an
empty capacity-7 table succeeds and changes the table. -/
theorem C9_counterexample :
    hash_key (some []) 7 = 1 ∧
    (ht_insert ⟨List.replicate 7 [], 0, 7⟩ (some []) (some 3) true true).2 = true ∧
    (ht_insert ⟨List.replicate 7 [], 0, 7⟩ (some []) (some 3) true true).1
      ≠ ⟨List.replicate 7 [], 0, 7⟩ := by
  refine ⟨by decide, by decide, by decide⟩

/-- Claim C9, amended: for the empty string key the accumulator stays -1, but
`hash %= ht_capacity` converts both operands to unsigned 64-bit, so hash_key
returns (2^64 - 1) mod capacity — never the sentinel -1; for capacities up
to 2^63 this is an ordinary bucket index, and the operations treat the empty
key like any other key. -/
theorem C9_amended (cap : Nat) (h0 : cap ≠ 0) (h63 : cap ≤ U63) :
    hash_key (some []) cap = (((U64 - 1) % cap : Nat) : Int) ∧
    hash_key (some []) cap ≠ -1 := by
  have h2 : toULL (hashLoop [] (-1) 1) = U64 - 1 := by decide
  rw [hash_key_some_eq [] cap h0, h2]
  have hr : (U64 - 1) % cap < cap := Nat.mod_lt _ (Nat.pos_of_ne_zero h0)
  rw [ofULL_small _ (Nat.lt_of_lt_of_le hr h63)]
  refine ⟨rfl, ?_⟩
  have := Int.natCast_nonneg ((U64 - 1) % cap)
  omega

/-- Witness for C9_amended at capacity 7. -/
theorem C9_witness :
    hash_key (some []) 7 = (((U64 - 1) % 7 : Nat) : Int) ∧
    hash_key (some []) 7 ≠ -1 :=
  C9_amended 7 (by decide) (by decide)

/-! ### Simple operation facts (claims C3, C4, C5, C7, C10) -/

/-- Claim C10: ht_find_key leaves the table completely unchanged — bucket
array, size and capacity are identical before and after, found or not. -/
theorem C10_find_pure (p_hashtable : Hashtable) (p_key : Option Key) :
    (ht_find_key p_hashtable p_key).1 = p_hashtable := by
  cases p_key with
  | none => rfl
  | some k =>
      simp only [ht_find_key]
      split <;> rfl

/-- Claim C3: after building the capacity-1 table with chain
[(key [98], 2), (key [97], 1)], deleting the non-head key [97] reports
success and invokes the destructor once on its value, but the branch
`p_prev_entry = p_temp_entry->p_next` only reassigns a local, so the chain —
including the freed entry — is unchanged and ht_find_key still returns the
deleted value instead of empty. -/
theorem C3_nonhead_delete_bug :
    (ht_insert (ht_insert ⟨[[]], 0, 1⟩ (some [97]) (some 1) true true).1
        (some [98]) (some 2) true true).1
      = { pp_entries := [[⟨[98], 2⟩, ⟨[97], 1⟩]], size := 2, capacity := 1 } ∧
    ht_delete { pp_entries := [[⟨[98], 2⟩, ⟨[97], 1⟩]], size := 2, capacity := 1 }
        (some [97]) (some ())
      = DelResult.ret
          { pp_entries := [[⟨[98], 2⟩, ⟨[97], 1⟩]], size := 2, capacity := 1 }
          true [1] ∧
    (ht_find_key { pp_entries := [[⟨[98], 2⟩, ⟨[97], 1⟩]], size := 2, capacity := 1 }
        (some [97])).2 = some 1 := by
  refine ⟨by decide, by decide, by decide⟩

/-- Claim C4: on a table holding one entry and an everywhere-matching
predicate, ht_compare returns NULL at once without invoking the predicate —
the check `(NULL == p_hashtable) || (p_user_func)` sends every provided
callback down the invalid-argument branch — while a NULL predicate passes
the check and is invoked, crashing on the first entry. -/
theorem C4_compare_inverted_check :
    ht_compare (some { pp_entries := [[⟨[97], 5⟩]], size := 1, capacity := 1 })
        (some fun d => some d) = CompResult.ret none ∧
    ht_compare (some { pp_entries := [[⟨[97], 5⟩]], size := 1, capacity := 1 })
        none = CompResult.crash :=
  ⟨rfl, rfl⟩

/-- Claim C5: inserting key [97] into a fresh capacity-2 table and then
deleting it succeeds, yet size stays 1 while no entry is reachable —
ht_delete decrements size on no path, so the size invariant breaks. -/
theorem C5_size_not_decremented :
    (ht_insert ⟨[[], []], 0, 2⟩ (some [97]) (some 5) true true).2 = true ∧
    ht_delete (ht_insert ⟨[[], []], 0, 2⟩ (some [97]) (some 5) true true).1
        (some [97]) (some ())
      = DelResult.ret { pp_entries := [[], []], size := 1, capacity := 2 } true [5] ∧
    reachableEntries { pp_entries := [[], []], size := 1, capacity := 2 } = 0 := by
  refine ⟨by decide, by decide, by decide⟩

/-- Claim C7: ht_create rejects capacity 0 and a failed table allocation,
but when the bucket-array allocation fails the source checks the table
pointer instead of pp_entries, so it hands back a partially-initialized
table whose bucket array is NULL. -/
theorem C7_create_partial_init :
    ht_create 0 true true = none ∧
    ht_create 5 false true = none ∧
    ht_create 5 true false
      = some { pp_entries := none, size := 0, capacity := 5 } := by
  refine ⟨by decide, by decide, by decide⟩

end HashtableC

namespace HashtableC

/-! ### Characterizations of the operations -/

/-- Either ht_insert fails and returns the table unchanged, or all checks
passed and it prepends the entry to the hashed bucket and bumps size. -/
theorem insert_cases (ht : Hashtable) (k : Key) (d : Data) (a1 a2 : Bool) :
    (ht_insert ht (some k) (some d) a1 a2 = (ht, false)) ∨
    (hash_key (some k) ht.capacity ≠ -1 ∧ (ht_find_key ht (some k)).2 = none ∧
     ht_insert ht (some k) (some d) a1 a2 =
       ({ ht with
            pp_entries := ht.pp_entries.set (bucketIdx k ht.capacity)
              (⟨k, d⟩ :: getBucket ht (bucketIdx k ht.capacity)),
            size := ht.size + 1 }, true)) := by
  simp only [ht_insert]
  split
  · exact Or.inl rfl
  · split
    · exact Or.inl rfl
    · split
      · exact Or.inl rfl
      · split
        · exact Or.inl rfl
        · rename_i h1 h2 _ _
          exact Or.inr ⟨h1, not_not.mp h2, rfl⟩

/-- Either ht_delete (with a valid callback) fails and returns the table
unchanged, or the scan split the chain and it returns true, the destructor
invoked once, with the bucket head re-pointed only in the head case. -/
theorem delete_cases (ht : Hashtable) (k : Key) :
    (ht_delete ht (some k) (some ()) = DelResult.ret ht false []) ∨
    (∃ before e suf,
      delLoop (getBucket ht (bucketIdx k ht.capacity)) k = some (before, e, suf) ∧
      hash_key (some k) ht.capacity ≠ -1 ∧
      ht_delete ht (some k) (some ()) = DelResult.ret
        (if before = [] then
           { ht with pp_entries := ht.pp_entries.set (bucketIdx k ht.capacity) suf }
         else ht) true [e.p_data]) := by
  simp only [ht_delete]
  split
  · exact Or.inl rfl
  · rename_i h1
    cases hd : delLoop (getBucket ht (bucketIdx k ht.capacity)) k with
    | none => exact Or.inl rfl
    | some x =>
        obtain ⟨before, e, suf⟩ := x
        exact Or.inr ⟨before, e, suf, rfl, h1, rfl⟩

/-- A successful delLoop split reconstructs the chain, and the matched entry
carries the searched key. -/
theorem delLoop_some (l : List Entry) (k : Key) (before : List Entry) (e : Entry)
    (suf : List Entry) (h : delLoop l k = some (before, e, suf)) :
    l = before ++ e :: suf ∧ e.p_key = k := by
  induction l generalizing before with
  | nil => simp [delLoop] at h
  | cons x rest ih =>
      simp only [delLoop] at h
      by_cases hx : x.p_key = k
      · rw [if_pos hx] at h
        simp only [Option.some.injEq, Prod.mk.injEq] at h
        obtain ⟨hb, he, hs⟩ := h
        subst hb; subst he; subst hs
        exact ⟨rfl, hx⟩
      · rw [if_neg hx] at h
        cases hd : delLoop rest k with
        | none => rw [hd] at h; cases h
        | some y =>
            obtain ⟨b2, m2, s2⟩ := y
            rw [hd] at h
            simp only [Option.some.injEq, Prod.mk.injEq] at h
            obtain ⟨hb, he, hs⟩ := h
            subst he; subst hs
            obtain ⟨ih1, ih2⟩ := ih b2 hd
            refine ⟨?_, ih2⟩
            rw [← hb, ih1]
            rfl

/-- The delete scan finds no entry exactly when the find scan finds none. -/
theorem delLoop_none_iff (l : List Entry) (k : Key) :
    delLoop l k = none ↔ findLoop l k = none := by
  induction l with
  | nil => simp [delLoop, findLoop]
  | cons e rest ih =>
      simp only [delLoop, findLoop]
      by_cases h : e.p_key = k
      · simp [h]
      · rw [if_neg h, if_neg h]
        cases hd : delLoop rest k with
        | none => simpa [hd] using ih
        | some y =>
            obtain ⟨b2, m2, s2⟩ := y
            simpa [hd] using ih

/-- Unfolding ht_find_key on an explicitly given table. -/
theorem find_mk (bs : List (List Entry)) (sz cap : Nat) (K : Key) :
    (ht_find_key ⟨bs, sz, cap⟩ (some K)).2
      = if hash_key (some K) cap = -1 then none
        else findLoop (bs.getD (bucketIdx K cap) []) K := by
  simp only [ht_find_key, getBucket]
  split <;> rfl

/-- Elimination form: a found key means the hash did not fail and the chain
scan of the hashed bucket returned the value. -/
theorem find_some_elim (ht : Hashtable) (K : Key) (V : Data)
    (h : (ht_find_key ht (some K)).2 = some V) :
    hash_key (some K) ht.capacity ≠ -1 ∧
    findLoop (getBucket ht (bucketIdx K ht.capacity)) K = some V := by
  by_cases hc : hash_key (some K) ht.capacity = -1
  · simp [ht_find_key, hc] at h
  · refine ⟨hc, ?_⟩
    simpa [ht_find_key, hc] using h

/-- Introduction form: with a non-failing hash, ht_find_key is the chain
scan of the hashed bucket. -/
theorem find_some_intro (ht : Hashtable) (K : Key)
    (hc : hash_key (some K) ht.capacity ≠ -1) :
    (ht_find_key ht (some K)).2
      = findLoop (getBucket ht (bucketIdx K ht.capacity)) K := by
  simp [ht_find_key, hc]

end HashtableC

namespace HashtableC

/-! ### Preservation lemmas and the remaining claims (C1, C6, C8) -/

/-- A successful insert makes the key immediately findable with its value. -/
theorem find_insert_self (ht : Hashtable) (k : Key) (d : Data) (a1 a2 : Bool)
    (hwf : WF ht) (hs : (ht_insert ht (some k) (some d) a1 a2).2 = true) :
    (ht_find_key (ht_insert ht (some k) (some d) a1 a2).1 (some k)).2 = some d := by
  rcases insert_cases ht k d a1 a2 with hc | ⟨h1, _h2, hc⟩
  · rw [hc] at hs; cases hs
  · rw [hc]
    have hlt : bucketIdx k ht.capacity < ht.pp_entries.length := by
      rw [hwf]; exact bucketIdx_lt k _ (cap_ne_zero_of_hash_ne k _ h1)
    show (ht_find_key ⟨ht.pp_entries.set (bucketIdx k ht.capacity)
        (⟨k, d⟩ :: getBucket ht (bucketIdx k ht.capacity)), ht.size + 1,
        ht.capacity⟩ (some k)).2 = some d
    rw [find_mk, if_neg h1, list_getD_set_self _ _ _ _ hlt]
    simp [findLoop]

/-- Inserting any other key (or failing to insert) never disturbs what
ht_find_key returns for a key already mapped to a value. -/
theorem find_preserved_insert (ht : Hashtable) (K k2 : Key) (V d2 : Data)
    (a1 a2 : Bool) (hwf : WF ht)
    (hK : (ht_find_key ht (some K)).2 = some V) :
    (ht_find_key (ht_insert ht (some k2) (some d2) a1 a2).1 (some K)).2 = some V := by
  rcases insert_cases ht k2 d2 a1 a2 with hc | ⟨h1, h2, hc⟩
  · rw [hc]; exact hK
  · have hne : k2 ≠ K := by
      intro he; rw [he, hK] at h2; cases h2
    obtain ⟨hch, hfl⟩ := find_some_elim ht K V hK
    rw [hc]
    show (ht_find_key ⟨ht.pp_entries.set (bucketIdx k2 ht.capacity)
        (⟨k2, d2⟩ :: getBucket ht (bucketIdx k2 ht.capacity)), ht.size + 1,
        ht.capacity⟩ (some K)).2 = some V
    rw [find_mk, if_neg hch]
    by_cases hij : bucketIdx k2 ht.capacity = bucketIdx K ht.capacity
    · have hlt : bucketIdx k2 ht.capacity < ht.pp_entries.length := by
        rw [hwf]; exact bucketIdx_lt k2 _ (cap_ne_zero_of_hash_ne k2 _ h1)
      rw [← hij, list_getD_set_self _ _ _ _ hlt]
      simp only [findLoop]
      rw [if_neg (show ((⟨k2, d2⟩ : Entry).p_key = K → False) from hne)]
      rw [hij]
      exact hfl
    · rw [list_getD_set_ne _ _ _ _ _ hij]
      exact hfl

/-- A delete of another key — or a failed delete — never disturbs what
ht_find_key returns for a key already mapped to a value; a delete of the key
itself is allowed only if it returned false. -/
theorem find_preserved_delete (ht : Hashtable) (K k2 : Key) (V : Data)
    (hwf : WF ht) (hK : (ht_find_key ht (some K)).2 = some V)
    (hnd : k2 = K → (applyOp ht (Op.del k2)).2 = false) :
    (ht_find_key (applyOp ht (Op.del k2)).1 (some K)).2 = some V := by
  rcases delete_cases ht k2 with hc | ⟨before, e, suf, hd, h1, hc⟩
  · simp only [applyOp, hc]; exact hK
  · have hne : k2 ≠ K := by
      intro he
      have hb := hnd he
      simp [applyOp, hc] at hb
    obtain ⟨hch, hfl⟩ := find_some_elim ht K V hK
    simp only [applyOp, hc]
    by_cases hb : before = []
    · rw [if_pos hb]
      obtain ⟨hsplit, hek⟩ := delLoop_some _ _ _ _ _ hd
      rw [hb] at hsplit
      have hsplit2 : getBucket ht (bucketIdx k2 ht.capacity) = e :: suf := hsplit
      show (ht_find_key ⟨ht.pp_entries.set (bucketIdx k2 ht.capacity) suf,
          ht.size, ht.capacity⟩ (some K)).2 = some V
      rw [find_mk, if_neg hch]
      by_cases hij : bucketIdx k2 ht.capacity = bucketIdx K ht.capacity
      · have hlt : bucketIdx k2 ht.capacity < ht.pp_entries.length := by
          rw [hwf]; exact bucketIdx_lt k2 _ (cap_ne_zero_of_hash_ne k2 _ h1)
        rw [← hij, list_getD_set_self _ _ _ _ hlt]
        rw [← hij, hsplit2] at hfl
        simp only [findLoop] at hfl
        rw [if_neg] at hfl
        · exact hfl
        · rw [hek]; exact hne
      · rw [list_getD_set_ne _ _ _ _ _ hij]
        exact hfl
    · rw [if_neg hb]
      exact hK

/-- Every operation preserves the bucket-count invariant. -/
theorem WF_insert (ht : Hashtable) (k : Key) (d : Data) (a1 a2 : Bool)
    (h : WF ht) : WF (ht_insert ht (some k) (some d) a1 a2).1 := by
  rcases insert_cases ht k d a1 a2 with hc | ⟨_, _, hc⟩ <;> rw [hc]
  · exact h
  · show (ht.pp_entries.set (bucketIdx k ht.capacity)
        (⟨k, d⟩ :: getBucket ht (bucketIdx k ht.capacity))).length = ht.capacity
    rw [List.length_set]; exact h

theorem WF_applyOp (ht : Hashtable) (op : Op) (h : WF ht) : WF (applyOp ht op).1 := by
  cases op with
  | ins k d a1 a2 => exact WF_insert ht k d a1 a2 h
  | del k =>
      rcases delete_cases ht k with hc | ⟨before, e, suf, _, _, hc⟩
      · simp only [applyOp, hc]; exact h
      · simp only [applyOp, hc]
        by_cases hb : before = []
        · rw [if_pos hb]
          show (ht.pp_entries.set (bucketIdx k ht.capacity) suf).length = ht.capacity
          rw [List.length_set]; exact h
        · rw [if_neg hb]; exact h

/-- Along any run in which no delete of key K returns true, a mapping of K
remains visible to ht_find_key. -/
theorem find_run (ops : List Op) : ∀ ht K V, WF ht →
    (ht_find_key ht (some K)).2 = some V → noDelSucc ht K ops = true →
    (ht_find_key (run ht ops) (some K)).2 = some V := by
  induction ops with
  | nil => intro ht K V _ hK _; exact hK
  | cons op ops ih =>
      intro ht K V hwf hK hnd
      simp only [noDelSucc, Bool.and_eq_true] at hnd
      obtain ⟨hnd1, hnd2⟩ := hnd
      show (ht_find_key (run (applyOp ht op).1 ops) (some K)).2 = some V
      apply ih _ K V (WF_applyOp ht op hwf) _ hnd2
      cases op with
      | ins k d a1 a2 => exact find_preserved_insert ht K k V d a1 a2 hwf hK
      | del k =>
          apply find_preserved_delete ht K k V hwf hK
          intro he
          subst he
          simpa using hnd1

/-- Claim C1: once ht_insert(table, K, V) has returned true, as long as no
ht_delete of K returns true in the following operations, ht_find_key
returns V for K. -/
theorem C1_insert_then_find (ht : Hashtable) (K : Key) (V : Data) (a1 a2 : Bool)
    (ops : List Op) (hwf : WF ht)
    (hins : (ht_insert ht (some K) (some V) a1 a2).2 = true)
    (hnd : noDelSucc (ht_insert ht (some K) (some V) a1 a2).1 K ops = true) :
    (ht_find_key (run (ht_insert ht (some K) (some V) a1 a2).1 ops) (some K)).2
      = some V :=
  find_run ops _ K V (WF_insert ht K V a1 a2 hwf)
    (find_insert_self ht K V a1 a2 hwf hins) hnd

/-- Witness for C1 on a concrete trace: create capacity 2, insert key [97]
with value 5, then insert key [98] and delete key [98]; find of [97] still
returns 5. -/
theorem C1_witness :
    (ht_find_key (run (ht_insert ⟨[[], []], 0, 2⟩ (some [97]) (some 5) true true).1
        [Op.ins [98] 6 true true, Op.del [98]]) (some [97])).2 = some 5 :=
  C1_insert_then_find ⟨[[], []], 0, 2⟩ [97] 5 true true
    [Op.ins [98] 6 true true, Op.del [98]] (by decide) (by decide) (by decide)

/-- Claim C6: when ht_find_key already returns a value for K, a second
ht_insert of K fails, the table is returned unchanged, and the original
value stays retrievable — the entry is never overwritten. -/
theorem C6_duplicate_insert (ht : Hashtable) (K : Key) (V V2 : Data)
    (a1 a2 : Bool) (hfound : (ht_find_key ht (some K)).2 = some V) :
    ht_insert ht (some K) (some V2) a1 a2 = (ht, false) ∧
    (ht_find_key (ht_insert ht (some K) (some V2) a1 a2).1 (some K)).2 = some V := by
  have hh : hash_key (some K) ht.capacity ≠ -1 := (find_some_elim ht K V hfound).1
  have hdup : (ht_find_key ht (some K)).2 ≠ none := by rw [hfound]; simp
  have hins : ht_insert ht (some K) (some V2) a1 a2 = (ht, false) := by
    simp only [ht_insert]
    rw [if_neg hh, if_pos hdup]
  exact ⟨hins, by rw [hins]; exact hfound⟩

/-- Witness for C6 at a concrete one-entry table. -/
theorem C6_witness :
    ht_insert ⟨[[⟨[97], 5⟩]], 1, 1⟩ (some [97]) (some 9) true true
      = (⟨[[⟨[97], 5⟩]], 1, 1⟩, false) ∧
    (ht_find_key (ht_insert ⟨[[⟨[97], 5⟩]], 1, 1⟩ (some [97]) (some 9) true true).1
        (some [97])).2 = some 5 :=
  C6_duplicate_insert ⟨[[⟨[97], 5⟩]], 1, 1⟩ [97] 5 9 true true (by decide)

/-- Claim C8, counterexample: ht_delete with a NULL destructor on a table
containing the key does not return an invalid-argument failure — it proceeds
to the call `p_del_func(p_temp_entry->p_data)` through the NULL pointer. -/
theorem C8_counterexample :
    ht_delete { pp_entries := [[⟨[97], 5⟩]], size := 1, capacity := 1 }
        (some [97]) none = DelResult.crash := by decide

/-- Claim C8, amended: ht_destroy checks its callback, but ht_delete never
checks its value-destructor: with a NULL destructor it returns the not-found
failure when the key is absent (the callback is never reached), and when the
key is present it proceeds and invokes the NULL callback — undefined
behaviour — instead of returning an invalid-argument failure. -/
theorem C8_amended (ht : Hashtable) (k : Key) :
    ((ht_find_key ht (some k)).2 = none →
      ht_delete ht (some k) none = DelResult.ret ht false []) ∧
    ((ht_find_key ht (some k)).2 ≠ none →
      ht_delete ht (some k) none = DelResult.crash) := by
  by_cases hh : hash_key (some k) ht.capacity = -1
  · constructor
    · intro _
      simp [ht_delete, hh]
    · intro hne
      exact absurd (by simp [ht_find_key, hh]) hne
  · have hfind : (ht_find_key ht (some k)).2
        = findLoop (getBucket ht (bucketIdx k ht.capacity)) k :=
      find_some_intro ht k hh
    cases hd : delLoop (getBucket ht (bucketIdx k ht.capacity)) k with
    | none =>
        have hfn : findLoop (getBucket ht (bucketIdx k ht.capacity)) k = none :=
          (delLoop_none_iff _ _).1 hd
        constructor
        · intro _
          simp [ht_delete, hh, hd]
        · intro hne
          exact absurd (by rw [hfind, hfn]) hne
    | some x =>
        obtain ⟨before, e, suf⟩ := x
        have hfn : findLoop (getBucket ht (bucketIdx k ht.capacity)) k ≠ none := by
          intro hcontra
          rw [← delLoop_none_iff, hd] at hcontra
          cases hcontra
        constructor
        · intro hzero
          exact absurd (by rw [← hfind]; exact hzero) hfn
        · intro _
          simp [ht_delete, hh, hd]

/-- Witness for C8_amended: a present key with a NULL destructor reaches the
NULL-callback call. -/
theorem C8_witness :
    ht_delete { pp_entries := [[⟨[98], 7⟩]], size := 1, capacity := 1 }
        (some [98]) none = DelResult.crash :=
  (C8_amended { pp_entries := [[⟨[98], 7⟩]], size := 1, capacity := 1 } [98]).2
    (by decide)

end HashtableC
